import Mathlib

/-!
Shallow embedding of `src/messageDecoder.ts` from loxone-zaptec-proxy.

The decoder consumes a byte buffer through a resumable producer
(`dataProducer`), reads length-prefixed string records (`readString`,
`frameDecoder`) and assembles elements (`messageDecoder`).  Bytes are
modelled as natural numbers, JavaScript strings as lists of Unicode code
points, and the `TextDecoder("utf-8")` call as the WHATWG UTF-8 decoder in
its default non-fatal (replacement) mode.
-/

namespace ZaptecProxy

/-- Failures of `messageDecoder`, identified by the message of the thrown
JavaScript `Error`: the two end-of-data messages inside `readString`, and the
"Unknown record type" message (thrown in `frameDecoder` and reused verbatim by
both grammar loops), which carries the offending byte. -/
inductive DecodeError where
  | unexpectedEndLength : DecodeError
  | unexpectedEndString : DecodeError
  | unknownRecordType : Nat → DecodeError
deriving DecidableEq

/-- State of the `dataProducer` generator: the bytes it has not yet handed
out, together with a count of the `prod.next(n)` calls made so far (used to
reason about how many take operations one decode performs). -/
structure St where
  data : List Nat
  takes : Nat
deriving DecidableEq

/-- One resumption `prod.next(n)` of `dataProducer`.  When no data remains the
generator is (or becomes) done and the value is `undefined`; otherwise it
yields `data.slice(0, n)` — silently shorter than `n` when fewer bytes remain —
and drops those bytes.  The initial `prod.next()` call neither consumes nor
produces data, so it needs no separate model. -/
def pnext (n : Nat) (s : St) : Option (List Nat) × St :=
  if s.data = [] then (none, ⟨s.data, s.takes + 1⟩)
  else (some (s.data.take n), ⟨s.data.drop n, s.takes + 1⟩)

/-- State of the WHATWG UTF-8 decoder that backs `new TextDecoder("utf-8")`:
bytes needed, bytes seen, lower boundary, upper boundary, code point. -/
structure U8S where
  bn : Nat
  bs : Nat
  lb : Nat
  ub : Nat
  cp : Nat
deriving DecidableEq

/-- Initial WHATWG UTF-8 decoder state. -/
def u8init : U8S := ⟨0, 0, 0x80, 0xBF, 0⟩

/-- WHATWG UTF-8 decoder: handling of one byte when no sequence is pending. -/
def u8start (b : Nat) : List Nat × U8S :=
  if b ≤ 0x7F then ([b], u8init)
  else if 0xC2 ≤ b ∧ b ≤ 0xDF then ([], ⟨1, 0, 0x80, 0xBF, b % 32⟩)
  else if 0xE0 ≤ b ∧ b ≤ 0xEF then
    ([], ⟨2, 0, if b = 0xE0 then 0xA0 else 0x80, if b = 0xED then 0x9F else 0xBF, b % 16⟩)
  else if 0xF0 ≤ b ∧ b ≤ 0xF4 then
    ([], ⟨3, 0, if b = 0xF0 then 0x90 else 0x80, if b = 0xF4 then 0x8F else 0xBF, b % 8⟩)
  else ([0xFFFD], u8init)

/-- WHATWG UTF-8 decoder: one byte in an arbitrary state.  In replacement mode
an invalid continuation byte emits U+FFFD and is reprocessed as a lead byte. -/
def u8step (st : U8S) (b : Nat) : List Nat × U8S :=
  if st.bn = 0 then u8start b
  else if st.lb ≤ b ∧ b ≤ st.ub then
    if st.bs + 1 = st.bn then ([st.cp * 64 + b % 64], u8init)
    else ([], ⟨st.bn, st.bs + 1, 0x80, 0xBF, st.cp * 64 + b % 64⟩)
  else (0xFFFD :: (u8start b).1, (u8start b).2)

/-- WHATWG UTF-8 decoder main loop; at end of input a pending incomplete
sequence emits one replacement character. -/
def utf8DecodeLoop (st : U8S) : List Nat → List Nat
  | [] => if st.bn = 0 then [] else [0xFFFD]
  | b :: rest => (u8step st b).1 ++ utf8DecodeLoop (u8step st b).2 rest

/-- The decoded code points of `new TextDecoder("utf-8").decode(bytes)` —
non-fatal mode, so invalid sequences become U+FFFD rather than errors. -/
def utf8Decode (bs : List Nat) : List Nat := utf8DecodeLoop u8init bs

/-- Record type constant from `messageDecoder.ts`. -/
def END_ELEMENT : Nat := 0x01

/-- Record type constant from `messageDecoder.ts`. -/
def SHORT_XMLNS_ATTRIBUTE : Nat := 0x08

/-- Record type constant from `messageDecoder.ts`. -/
def SHORT_ELEMENT : Nat := 0x40

/-- Record type constant from `messageDecoder.ts`. -/
def CHARS8TEXT : Nat := 0x98

/-- Record type constant from `messageDecoder.ts`. -/
def CHARS16TEXT : Nat := 0x9A

/-- The `readString` helper: read a 1-byte (or, for `bits16`, 2-byte
little-endian) length prefix, failing when the produced slice is shorter than
the prefix width or `undefined`; then request that many payload bytes, failing
only when the producer is exhausted (`undefined`), and decode them as UTF-8.
A short payload slice passes the `!strBytes` check unremarked. -/
def readString (bits16 : Bool) (s : St) : Except DecodeError (List Nat × St) :=
  match pnext (if bits16 then 2 else 1) s with
  | (none, _) => .error .unexpectedEndLength
  | (some b, s1) =>
    if b.length < (if bits16 then 2 else 1) then .error .unexpectedEndLength
    else
      match pnext (if bits16 then b.headD 0 + b.getD 1 0 * 256 else b.headD 0) s1 with
      | (none, _) => .error .unexpectedEndString
      | (some strBytes, s2) => .ok (utf8Decode strBytes, s2)

/-- A decoded element `{ name, xmlns?, text? }`, its strings given as lists of
Unicode code points; an absent optional field is `none`. -/
structure Element where
  name : List Nat
  xmlns : Option (List Nat)
  text : Option (List Nat)
deriving DecidableEq

/-- The JavaScript expression `text || ""` applied to a string-or-null value:
`null` and the empty string both become the empty string. -/
def orEmpty (t : Option (List Nat)) : List Nat := t.getD []

/-- One step of the `frameDecoder` generator: read a tag byte (end of stream
when the producer is done), dispatch the four payload-bearing record types to
`readString` (2-byte length exactly for `CHARS16TEXT`), pass `END_ELEMENT`
through with a `null` payload, and throw "Unknown record type" otherwise. -/
def nextFrame (s : St) : Except DecodeError (Option (Nat × Option (List Nat)) × St) :=
  match pnext 1 s with
  | (none, s1) => .ok (none, s1)
  | (some result, s1) =>
    if result.headD 0 = SHORT_ELEMENT ∨ result.headD 0 = SHORT_XMLNS_ATTRIBUTE ∨
        result.headD 0 = CHARS8TEXT ∨ result.headD 0 = CHARS16TEXT then
      match readString (result.headD 0 == CHARS16TEXT) s1 with
      | .error e => .error e
      | .ok (str, s2) => .ok (some (result.headD 0, some str), s2)
    else if result.headD 0 = END_ELEMENT then .ok (some (result.headD 0, none), s1)
    else .error (.unknownRecordType (result.headD 0))

/-- The inner `while` loop of `messageDecoder`, entered after a
`SHORT_ELEMENT` opened `e`.  It consumes records into the open element —
xmlns attribute, text (8- or 16-bit), `EndElement` closes — and throws
"Unknown record type" on anything else (in particular a nested
`SHORT_ELEMENT`).  The returned flag records whether the loop ended because
the frame generator finished (`true`) rather than on `EndElement` (`false`):
a finished generator is not resumed again by the outer loop.  `fuel` bounds
the iterations; `none` means it ran out (shown impossible below). -/
def innerLoopF (fuel : Nat) (e : Element) (s : St) :
    Option (Except DecodeError (Element × St × Bool)) :=
  match fuel with
  | 0 => none
  | fuel + 1 =>
    match nextFrame s with
    | .error er => some (.error er)
    | .ok (none, s1) => some (.ok (e, s1, true))
    | .ok (some (recordType, text), s1) =>
      if recordType = SHORT_XMLNS_ATTRIBUTE then
        innerLoopF fuel ⟨e.name, some (orEmpty text), e.text⟩ s1
      else if recordType = CHARS8TEXT ∨ recordType = CHARS16TEXT then
        innerLoopF fuel ⟨e.name, e.xmlns, some (orEmpty text)⟩ s1
      else if recordType = END_ELEMENT then some (.ok (e, s1, false))
      else some (.error (.unknownRecordType recordType))

/-- The outer `while` loop of `messageDecoder`: stop cleanly at end of
stream, open an element on `SHORT_ELEMENT` and run the inner loop on it
(the element pushed to `root` is the one the inner loop has finished
mutating), and throw "Unknown record type" for any other record at top
level.  When the inner loop ended on a finished frame generator, the outer
`frame.next()` returns done immediately, so the loop stops without touching
the producer again. -/
def outerLoopF (fuel : Nat) (root : List Element) (s : St) :
    Option (Except DecodeError (List Element × St)) :=
  match fuel with
  | 0 => none
  | fuel + 1 =>
    match nextFrame s with
    | .error er => some (.error er)
    | .ok (none, s1) => some (.ok (root, s1))
    | .ok (some (recordType, text), s1) =>
      if recordType = SHORT_ELEMENT then
        match innerLoopF (s1.data.length + 1) ⟨orEmpty text, none, none⟩ s1 with
        | none => none
        | some (.error er) => some (.error er)
        | some (.ok (e, s2, frameDone)) =>
          if frameDone then some (.ok (root ++ [e], s2))
          else outerLoopF fuel (root ++ [e]) s2
      else some (.error (.unknownRecordType recordType))

/-- One whole run of `messageDecoder msg`, keeping the final producer state
(and with it the number of take operations performed).  The fuel
`msg.length + 1` is always sufficient, as proved below. -/
def decodeRun (msg : List Nat) : Option (Except DecodeError (List Element × St)) :=
  outerLoopF (msg.length + 1) [] ⟨msg, 0⟩

/-- The exported `messageDecoder(msg)`: the ordered list of decoded elements,
or the error thrown.  The `none` fallback of the fuelled loop is unreachable
(`decodeRun_isSome` below) and mapped to an arbitrary error. -/
def messageDecoder (msg : List Nat) : Except DecodeError (List Element) :=
  match decodeRun msg with
  | some (.ok (root, _)) => .ok root
  | some (.error e) => .error e
  | none => .error .unexpectedEndLength

/-- A Unicode scalar value: what one position of a JavaScript string produced
by `TextDecoder` can hold (no surrogate code points). -/
def IsScalar (c : Nat) : Prop := c < 0x110000 ∧ (c < 0xD800 ∨ 0xDFFF < c)

instance (c : Nat) : Decidable (IsScalar c) := by unfold IsScalar; exact inferInstance

/-- Modelled from the spec: UTF-8 encoding of one scalar value, as needed by
the companion test-only encoder the spec requires but the repository does not
contain. -/
def utf8EncodeChar (c : Nat) : List Nat :=
  if c < 0x80 then [c]
  else if c < 0x800 then [0xC0 + c / 64, 0x80 + c % 64]
  else if c < 0x10000 then [0xE0 + c / 4096, 0x80 + c / 64 % 64, 0x80 + c % 64]
  else [0xF0 + c / 262144, 0x80 + c / 4096 % 64, 0x80 + c / 64 % 64, 0x80 + c % 64]

/-- Modelled from the spec: UTF-8 encoding of a string (of code points). -/
def utf8Encode (s : List Nat) : List Nat := (s.map utf8EncodeChar).flatten

/-- A string the grammar can carry behind a 1-byte length prefix: scalar code
points whose UTF-8 encoding fits the 8-bit length field. -/
def ValidStr8 (s : List Nat) : Prop :=
  (∀ c ∈ s, IsScalar c) ∧ (utf8Encode s).length ≤ 255

/-- A string the grammar can carry behind a 2-byte length prefix: scalar code
points whose UTF-8 encoding fits the 16-bit length field. -/
def ValidStr16 (s : List Nat) : Prop :=
  (∀ c ∈ s, IsScalar c) ∧ (utf8Encode s).length ≤ 65535

/-- A valid Element in the sense of the spec: encodable name and optional
xmlns under the 1-byte length prefix, optional text under the grammar's
length prefixes (8-bit, or 16-bit for longer payloads). -/
def ValidElement (e : Element) : Prop :=
  ValidStr8 e.name ∧ (∀ x ∈ e.xmlns, ValidStr8 x) ∧ (∀ t ∈ e.text, ValidStr16 t)

/-- Modelled from the spec: a length-prefixed string field of the test-only
companion encoder (1-byte length, then the UTF-8 bytes). -/
def encString8 (s : List Nat) : List Nat := (utf8Encode s).length :: utf8Encode s

/-- Modelled from the spec: the encoder's optional xmlns-attribute record. -/
def xmlnsPart : Option (List Nat) → List Nat
  | none => []
  | some x => SHORT_XMLNS_ATTRIBUTE :: encString8 x

/-- Modelled from the spec: the encoder's optional text record — `Chars8Text`
when the UTF-8 payload fits a 1-byte length, else `Chars16Text` with a 2-byte
little-endian length. -/
def textPart : Option (List Nat) → List Nat
  | none => []
  | some t =>
    if (utf8Encode t).length ≤ 255 then CHARS8TEXT :: encString8 t
    else CHARS16TEXT :: (utf8Encode t).length % 256 :: (utf8Encode t).length / 256 ::
      utf8Encode t

/-- Modelled from the spec: the companion test-only encoder for one element
(the repository has no encoder; the spec's testable properties require one
implementing the inverse grammar): a `ShortElement` record with the name,
the optional xmlns attribute, the optional text, then `EndElement`. -/
def encodeElement (e : Element) : List Nat :=
  SHORT_ELEMENT :: ((utf8Encode e.name).length ::
    (utf8Encode e.name ++ (xmlnsPart e.xmlns ++ (textPart e.text ++ [END_ELEMENT]))))

/-- Modelled from the spec: the companion encoder for a sequence of elements. -/
def encode (es : List Element) : List Nat := (es.map encodeElement).flatten

theorem pnext_nil (n c : Nat) : pnext n ⟨[], c⟩ = (none, ⟨[], c + 1⟩) := rfl

theorem pnext_cons (n c a : Nat) (l : List Nat) :
    pnext n ⟨a :: l, c⟩ = (some ((a :: l).take n), ⟨(a :: l).drop n, c + 1⟩) := by
  simp [pnext]

theorem u8step_init (b : Nat) : u8step u8init b = u8start b := by
  simp [u8step, u8init]

theorem u8start_ascii (b : Nat) (h : b ≤ 0x7F) : u8start b = ([b], u8init) := by
  rw [u8start, if_pos h]

theorem u8start_two (b : Nat) (h : 0xC2 ≤ b ∧ b ≤ 0xDF) :
    u8start b = ([], ⟨1, 0, 0x80, 0xBF, b % 32⟩) := by
  rw [u8start, if_neg (by omega), if_pos h]

theorem u8start_three (b : Nat) (h : 0xE0 ≤ b ∧ b ≤ 0xEF) :
    u8start b = ([], ⟨2, 0, if b = 0xE0 then 0xA0 else 0x80,
      if b = 0xED then 0x9F else 0xBF, b % 16⟩) := by
  rw [u8start, if_neg (by omega), if_neg (by omega), if_pos h]

theorem u8start_four (b : Nat) (h : 0xF0 ≤ b ∧ b ≤ 0xF4) :
    u8start b = ([], ⟨3, 0, if b = 0xF0 then 0x90 else 0x80,
      if b = 0xF4 then 0x8F else 0xBF, b % 8⟩) := by
  rw [u8start, if_neg (by omega), if_neg (by omega), if_neg (by omega), if_pos h]

theorem u8step_fin (bn bs lb ub cp b : Nat) (hbn : ¬ bn = 0) (hr : lb ≤ b ∧ b ≤ ub)
    (hf : bs + 1 = bn) :
    u8step ⟨bn, bs, lb, ub, cp⟩ b = ([cp * 64 + b % 64], u8init) := by
  simp only [u8step]
  rw [if_neg hbn, if_pos hr, if_pos hf]

theorem u8step_more (bn bs lb ub cp b : Nat) (hbn : ¬ bn = 0) (hr : lb ≤ b ∧ b ≤ ub)
    (hf : ¬ bs + 1 = bn) :
    u8step ⟨bn, bs, lb, ub, cp⟩ b = ([], ⟨bn, bs + 1, 0x80, 0xBF, cp * 64 + b % 64⟩) := by
  simp only [u8step]
  rw [if_neg hbn, if_pos hr, if_neg hf]

theorem utf8DecodeLoop_encodeChar (c : Nat) (h : IsScalar c) (rest : List Nat) :
    utf8DecodeLoop u8init (utf8EncodeChar c ++ rest) = c :: utf8DecodeLoop u8init rest := by
  obtain ⟨hlt, hsur⟩ := h
  rcases Nat.lt_or_ge c 0x80 with h1 | h1
  · have he : utf8EncodeChar c = [c] := by rw [utf8EncodeChar, if_pos h1]
    have e1 : u8step u8init c = ([c], u8init) := by
      rw [u8step_init, u8start_ascii c (by omega)]
    rw [he]
    simp only [List.cons_append, List.nil_append, utf8DecodeLoop, e1]
    simp
  rcases Nat.lt_or_ge c 0x800 with h2 | h2
  · have he : utf8EncodeChar c = [0xC0 + c / 64, 0x80 + c % 64] := by
      rw [utf8EncodeChar, if_neg (by omega), if_pos h2]
    have e1 : u8step u8init (0xC0 + c / 64) = ([], ⟨1, 0, 0x80, 0xBF, c / 64⟩) := by
      have hm : (0xC0 + c / 64) % 32 = c / 64 := by omega
      rw [u8step_init, u8start_two _ (by omega), hm]
    have e2 : u8step ⟨1, 0, 0x80, 0xBF, c / 64⟩ (0x80 + c % 64) = ([c], u8init) := by
      have hc : c / 64 * 64 + (0x80 + c % 64) % 64 = c := by omega
      rw [u8step_fin 1 0 0x80 0xBF (c / 64) (0x80 + c % 64) (by omega) (by omega) rfl, hc]
    rw [he]
    simp only [List.cons_append, List.nil_append, utf8DecodeLoop, e1, e2]
    simp
  rcases Nat.lt_or_ge c 0x10000 with h3 | h3
  · have he : utf8EncodeChar c = [0xE0 + c / 4096, 0x80 + c / 64 % 64, 0x80 + c % 64] := by
      rw [utf8EncodeChar, if_neg (by omega), if_neg (by omega), if_pos h3]
    have hsplit : c < 0x1000 ∨ (0xD000 ≤ c ∧ c < 0xD800) ∨
        (0x1000 ≤ c ∧ (c < 0xD000 ∨ 0xDFFF < c)) := by omega
    have hlb : (if 0xE0 + c / 4096 = 0xE0 then 0xA0 else 0x80) ≤ 0x80 + c / 64 % 64 := by
      rcases hsplit with hA | hB | hC
      · rw [if_pos (by omega)]; omega
      · rw [if_neg (by omega)]; omega
      · rw [if_neg (by omega)]; omega
    have hub : 0x80 + c / 64 % 64 ≤ if 0xE0 + c / 4096 = 0xED then 0x9F else 0xBF := by
      rcases hsplit with hA | hB | hC
      · rw [if_neg (by omega)]; omega
      · rw [if_pos (by omega)]; omega
      · rw [if_neg (by omega)]; omega
    have e1 : u8step u8init (0xE0 + c / 4096) =
        ([], ⟨2, 0, if 0xE0 + c / 4096 = 0xE0 then 0xA0 else 0x80,
          if 0xE0 + c / 4096 = 0xED then 0x9F else 0xBF, c / 4096⟩) := by
      have hm : (0xE0 + c / 4096) % 16 = c / 4096 := by omega
      rw [u8step_init, u8start_three _ (by omega), hm]
    have e2 : u8step ⟨2, 0, if 0xE0 + c / 4096 = 0xE0 then 0xA0 else 0x80,
          if 0xE0 + c / 4096 = 0xED then 0x9F else 0xBF, c / 4096⟩ (0x80 + c / 64 % 64) =
        ([], ⟨2, 1, 0x80, 0xBF, c / 64⟩) := by
      have hc : c / 4096 * 64 + (0x80 + c / 64 % 64) % 64 = c / 64 := by omega
      rw [u8step_more 2 0 _ _ (c / 4096) (0x80 + c / 64 % 64) (by omega) ⟨hlb, hub⟩
        (by omega), hc]
    have e3 : u8step ⟨2, 1, 0x80, 0xBF, c / 64⟩ (0x80 + c % 64) = ([c], u8init) := by
      have hc : c / 64 * 64 + (0x80 + c % 64) % 64 = c := by omega
      rw [u8step_fin 2 1 0x80 0xBF (c / 64) (0x80 + c % 64) (by omega) (by omega) rfl, hc]
    rw [he]
    simp only [List.cons_append, List.nil_append, utf8DecodeLoop, e1, e2, e3]
    simp
  · have he : utf8EncodeChar c =
        [0xF0 + c / 262144, 0x80 + c / 4096 % 64, 0x80 + c / 64 % 64, 0x80 + c % 64] := by
      rw [utf8EncodeChar, if_neg (by omega), if_neg (by omega), if_neg (by omega)]
    have hsplit : c < 0x40000 ∨ 0x100000 ≤ c ∨ (0x40000 ≤ c ∧ c < 0x100000) := by omega
    have hlb : (if 0xF0 + c / 262144 = 0xF0 then 0x90 else 0x80) ≤ 0x80 + c / 4096 % 64 := by
      rcases hsplit with hA | hB | hC
      · rw [if_pos (by omega)]; omega
      · rw [if_neg (by omega)]; omega
      · rw [if_neg (by omega)]; omega
    have hub : 0x80 + c / 4096 % 64 ≤ if 0xF0 + c / 262144 = 0xF4 then 0x8F else 0xBF := by
      rcases hsplit with hA | hB | hC
      · rw [if_neg (by omega)]; omega
      · rw [if_pos (by omega)]; omega
      · rw [if_neg (by omega)]; omega
    have e1 : u8step u8init (0xF0 + c / 262144) =
        ([], ⟨3, 0, if 0xF0 + c / 262144 = 0xF0 then 0x90 else 0x80,
          if 0xF0 + c / 262144 = 0xF4 then 0x8F else 0xBF, c / 262144⟩) := by
      have hm : (0xF0 + c / 262144) % 8 = c / 262144 := by omega
      rw [u8step_init, u8start_four _ (by omega), hm]
    have e2 : u8step ⟨3, 0, if 0xF0 + c / 262144 = 0xF0 then 0x90 else 0x80,
          if 0xF0 + c / 262144 = 0xF4 then 0x8F else 0xBF, c / 262144⟩
          (0x80 + c / 4096 % 64) = ([], ⟨3, 1, 0x80, 0xBF, c / 4096⟩) := by
      have hc : c / 262144 * 64 + (0x80 + c / 4096 % 64) % 64 = c / 4096 := by omega
      rw [u8step_more 3 0 _ _ (c / 262144) (0x80 + c / 4096 % 64) (by omega) ⟨hlb, hub⟩
        (by omega), hc]
    have e3 : u8step ⟨3, 1, 0x80, 0xBF, c / 4096⟩ (0x80 + c / 64 % 64) =
        ([], ⟨3, 2, 0x80, 0xBF, c / 64⟩) := by
      have hc : c / 4096 * 64 + (0x80 + c / 64 % 64) % 64 = c / 64 := by omega
      rw [u8step_more 3 1 0x80 0xBF (c / 4096) (0x80 + c / 64 % 64) (by omega)
        (by omega) (by omega), hc]
    have e4 : u8step ⟨3, 2, 0x80, 0xBF, c / 64⟩ (0x80 + c % 64) = ([c], u8init) := by
      have hc : c / 64 * 64 + (0x80 + c % 64) % 64 = c := by omega
      rw [u8step_fin 3 2 0x80 0xBF (c / 64) (0x80 + c % 64) (by omega) (by omega) rfl, hc]
    rw [he]
    simp only [List.cons_append, List.nil_append, utf8DecodeLoop, e1, e2, e3, e4]
    simp

theorem utf8Decode_encode_append (s : List Nat) (h : ∀ c ∈ s, IsScalar c) (rest : List Nat) :
    utf8DecodeLoop u8init (utf8Encode s ++ rest) = s ++ utf8DecodeLoop u8init rest := by
  induction s with
  | nil => simp [utf8Encode]
  | cons c cs ih =>
    have hsplit : utf8Encode (c :: cs) = utf8EncodeChar c ++ utf8Encode cs := by
      simp [utf8Encode]
    rw [hsplit, List.append_assoc, utf8DecodeLoop_encodeChar c (h c (by simp)) _,
      ih (fun x hx => h x (by simp [hx]))]
    simp

theorem utf8Decode_encode (s : List Nat) (h : ∀ c ∈ s, IsScalar c) :
    utf8Decode (utf8Encode s) = s := by
  have hmain := utf8Decode_encode_append s h []
  simpa [utf8Decode, utf8DecodeLoop, u8init] using hmain

theorem pnext_one_cons (c b : Nat) (l : List Nat) :
    pnext 1 ⟨b :: l, c⟩ = (some [b], ⟨l, c + 1⟩) := by
  simp [pnext]

theorem readString_ok_len8 (b0 : Nat) (d rest : List Nat) (c : Nat)
    (hlen : d.length = b0) (hne : d ++ rest ≠ []) :
    readString false ⟨b0 :: (d ++ rest), c⟩ = .ok (utf8Decode d, ⟨rest, c + 2⟩) := by
  subst hlen
  have h2 : pnext d.length ⟨d ++ rest, c + 1⟩ = (some d, ⟨rest, c + 2⟩) := by
    simp only [pnext, List.take_left, List.drop_left]
    rw [if_neg hne]
  simp only [readString, Bool.false_eq_true, eq_self_iff_true, ite_false, ite_true,
    pnext_cons, List.take_succ_cons, List.take_zero, List.drop_succ_cons,
    List.drop_zero, List.headD_cons]
  rw [h2]
  simp

theorem readString_ok_len16 (b0 b1 : Nat) (d rest : List Nat) (c : Nat)
    (hlen : d.length = b0 + b1 * 256) (hne : d ++ rest ≠ []) :
    readString true ⟨b0 :: b1 :: (d ++ rest), c⟩ = .ok (utf8Decode d, ⟨rest, c + 2⟩) := by
  have h2 : pnext (b0 + b1 * 256) ⟨d ++ rest, c + 1⟩ = (some d, ⟨rest, c + 2⟩) := by
    simp only [pnext, ← hlen, List.take_left, List.drop_left]
    rw [if_neg hne]
  simp only [readString, Bool.false_eq_true, eq_self_iff_true, ite_false, ite_true,
    pnext_cons, List.take_succ_cons, List.take_zero, List.drop_succ_cons,
    List.drop_zero, List.headD_cons, List.getD_cons_succ, List.getD_cons_zero]
  rw [h2]
  simp

theorem readString_err_nil (b16 : Bool) (c : Nat) :
    readString b16 ⟨[], c⟩ = .error .unexpectedEndLength := by
  cases b16 <;> simp [readString, pnext_nil]

theorem readString_err_one (b c : Nat) :
    readString true ⟨[b], c⟩ = .error .unexpectedEndLength := by
  simp [readString, pnext_cons]

theorem readString_err_payload (b0 c : Nat) :
    readString false ⟨[b0], c⟩ = .error .unexpectedEndString := by
  have h2 : pnext b0 ⟨[], c + 1⟩ = (none, ⟨[], c + 2⟩) := pnext_nil b0 (c + 1)
  simp only [readString, Bool.false_eq_true, eq_self_iff_true, ite_false, ite_true,
    pnext_cons, List.take_succ_cons, List.take_zero, List.drop_succ_cons,
    List.drop_zero, List.headD_cons]
  rw [h2]
  simp

theorem readString_trunc (len : Nat) (d : List Nat) (c : Nat) (hne : d ≠ [])
    (hshort : d.length < len) :
    readString false ⟨len :: d, c⟩ = .ok (utf8Decode d, ⟨[], c + 2⟩) := by
  have h2 : pnext len ⟨d, c + 1⟩ = (some d, ⟨[], c + 2⟩) := by
    simp only [pnext]
    rw [if_neg hne, List.take_of_length_le (by omega),
      List.drop_of_length_le (by omega)]
  simp only [readString, Bool.false_eq_true, eq_self_iff_true, ite_false, ite_true,
    pnext_cons, List.take_succ_cons, List.take_zero, List.drop_succ_cons,
    List.drop_zero, List.headD_cons]
  rw [h2]
  simp

theorem readString_error_cases (b16 : Bool) (s : St) (e : DecodeError)
    (h : readString b16 s = .error e) :
    e = .unexpectedEndLength ∨ e = .unexpectedEndString := by
  unfold readString at h
  rcases hp : pnext (if b16 then 2 else 1) s with ⟨ob, s1⟩
  rw [hp] at h
  rcases ob with _ | b
  · dsimp only at h
    simp only [Except.error.injEq] at h
    exact Or.inl h.symm
  · dsimp only at h
    by_cases hb : b.length < (if b16 then 2 else 1)
    · rw [if_pos hb] at h
      simp only [Except.error.injEq] at h
      exact Or.inl h.symm
    · rw [if_neg hb] at h
      rcases hp2 : pnext (if b16 then b.headD 0 + b.getD 1 0 * 256 else b.headD 0) s1
        with ⟨ob2, s2⟩
      rw [hp2] at h
      rcases ob2 with _ | t
      · dsimp only at h
        simp only [Except.error.injEq] at h
        exact Or.inr h.symm
      · dsimp only at h
        exact Except.noConfusion h

theorem nextFrame_nil (c : Nat) : nextFrame ⟨[], c⟩ = .ok (none, ⟨[], c + 1⟩) := by
  simp [nextFrame, pnext_nil]

theorem nextFrame_end (l : List Nat) (c : Nat) :
    nextFrame ⟨END_ELEMENT :: l, c⟩ = .ok (some (END_ELEMENT, none), ⟨l, c + 1⟩) := by
  simp [nextFrame, pnext_one_cons, SHORT_ELEMENT, SHORT_XMLNS_ATTRIBUTE, CHARS8TEXT,
    CHARS16TEXT, END_ELEMENT]

theorem nextFrame_payload8 (tag : Nat)
    (htag : tag = SHORT_ELEMENT ∨ tag = SHORT_XMLNS_ATTRIBUTE ∨ tag = CHARS8TEXT)
    (l : List Nat) (c : Nat) (t : List Nat) (s2 : St)
    (hread : readString false ⟨l, c + 1⟩ = .ok (t, s2)) :
    nextFrame ⟨tag :: l, c⟩ = .ok (some (tag, some t), s2) := by
  rcases htag with rfl | rfl | rfl <;>
    simp [nextFrame, pnext_one_cons, hread, SHORT_ELEMENT, SHORT_XMLNS_ATTRIBUTE,
      CHARS8TEXT, CHARS16TEXT]

theorem nextFrame_payload16 (l : List Nat) (c : Nat) (t : List Nat) (s2 : St)
    (hread : readString true ⟨l, c + 1⟩ = .ok (t, s2)) :
    nextFrame ⟨CHARS16TEXT :: l, c⟩ = .ok (some (CHARS16TEXT, some t), s2) := by
  simp [nextFrame, pnext_one_cons, hread, SHORT_ELEMENT, SHORT_XMLNS_ATTRIBUTE,
    CHARS8TEXT, CHARS16TEXT]

theorem nextFrame_payload_err (tag : Nat)
    (htag : tag = SHORT_ELEMENT ∨ tag = SHORT_XMLNS_ATTRIBUTE ∨ tag = CHARS8TEXT)
    (l : List Nat) (c : Nat) (e : DecodeError)
    (hread : readString false ⟨l, c + 1⟩ = .error e) :
    nextFrame ⟨tag :: l, c⟩ = .error e := by
  rcases htag with rfl | rfl | rfl <;>
    simp [nextFrame, pnext_one_cons, hread, SHORT_ELEMENT, SHORT_XMLNS_ATTRIBUTE,
      CHARS8TEXT, CHARS16TEXT]

theorem pnext_eq_some (n : Nat) (s s1 : St) (b : List Nat)
    (h : pnext n s = (some b, s1)) :
    s.data ≠ [] ∧ b = s.data.take n ∧ s1 = ⟨s.data.drop n, s.takes + 1⟩ := by
  unfold pnext at h
  by_cases hd : s.data = []
  · rw [if_pos hd] at h
    exact absurd (congrArg Prod.fst h) (by simp)
  · rw [if_neg hd] at h
    obtain ⟨h1, h2⟩ := Prod.mk.injEq .. ▸ h
    exact ⟨hd, (Option.some.injEq .. ▸ h1).symm, h2.symm⟩

theorem pnext_eq_none (n : Nat) (s s1 : St) (h : pnext n s = (none, s1)) :
    s.data = [] ∧ s1 = ⟨[], s.takes + 1⟩ := by
  unfold pnext at h
  by_cases hd : s.data = []
  · rw [if_pos hd] at h
    obtain ⟨h1, h2⟩ := Prod.mk.injEq .. ▸ h
    exact ⟨hd, by rw [← h2, hd]⟩
  · rw [if_neg hd] at h
    exact absurd (congrArg Prod.fst h) (by simp)

theorem readString_consumes (b16 : Bool) (s : St) (t : List Nat) (s2 : St)
    (h : readString b16 s = .ok (t, s2)) :
    s2.takes = s.takes + 2 ∧ s2.data.length + (if b16 then 2 else 1) ≤ s.data.length := by
  unfold readString at h
  rcases hp : pnext (if b16 then 2 else 1) s with ⟨ob, s1⟩
  rw [hp] at h
  rcases ob with _ | b
  · exact Except.noConfusion h
  · dsimp only at h
    by_cases hb : b.length < (if b16 then 2 else 1)
    · rw [if_pos hb] at h
      exact Except.noConfusion h
    · rw [if_neg hb] at h
      rcases hp2 : pnext (if b16 then b.headD 0 + b.getD 1 0 * 256 else b.headD 0) s1
        with ⟨ob2, s2'⟩
      rw [hp2] at h
      rcases ob2 with _ | t'
      · exact Except.noConfusion h
      · dsimp only at h
        obtain ⟨-, hs2⟩ := Prod.mk.injEq .. ▸ Except.ok.injEq .. ▸ h
        obtain ⟨hne, hbval, hs1⟩ := pnext_eq_some _ _ _ _ hp
        obtain ⟨hne2, -, hs2'⟩ := pnext_eq_some _ _ _ _ hp2
        subst hs2
        have hlen : b.length = min (if b16 then 2 else 1) s.data.length := by
          rw [hbval, List.length_take]
        have ht2 : s2'.takes = s.takes + 2 := by rw [hs2', hs1]
        have hd2 : s2'.data.length ≤ s1.data.length := by
          rw [hs2']
          simp only [List.length_drop]
          omega
        have hd1 : s1.data.length + (if b16 then 2 else 1) = s.data.length := by
          rw [hs1]
          simp only [List.length_drop]
          cases b16 <;>
            simp only [Bool.false_eq_true, eq_self_iff_true, ite_true, ite_false]
              at hlen hb ⊢ <;>
            omega
        refine ⟨ht2, ?_⟩
        cases b16 <;>
          simp only [Bool.false_eq_true, eq_self_iff_true, ite_true, ite_false]
            at hd1 ⊢ <;>
          omega

theorem nextFrame_ok_none (s s1 : St) (h : nextFrame s = .ok (none, s1)) :
    s.data = [] ∧ s1 = ⟨[], s.takes + 1⟩ := by
  unfold nextFrame at h
  rcases hp : pnext 1 s with ⟨ob, s1'⟩
  rw [hp] at h
  rcases ob with _ | b
  · dsimp only at h
    obtain ⟨h1, h2⟩ := Prod.mk.injEq .. ▸ Except.ok.injEq .. ▸ h
    obtain ⟨hd, hs⟩ := pnext_eq_none _ _ _ hp
    exact ⟨hd, h2 ▸ hs⟩
  · dsimp only at h
    by_cases hm : b.headD 0 = SHORT_ELEMENT ∨ b.headD 0 = SHORT_XMLNS_ATTRIBUTE ∨
        b.headD 0 = CHARS8TEXT ∨ b.headD 0 = CHARS16TEXT
    · rw [if_pos hm] at h
      rcases hr : readString (b.headD 0 == CHARS16TEXT) s1' with er | ⟨t, s2⟩
      · rw [hr] at h
        exact Except.noConfusion h
      · rw [hr] at h
        dsimp only at h
        obtain ⟨h1, -⟩ := Prod.mk.injEq .. ▸ Except.ok.injEq .. ▸ h
        exact Option.noConfusion h1
    · rw [if_neg hm] at h
      by_cases he : b.headD 0 = END_ELEMENT
      · rw [if_pos he] at h
        obtain ⟨h1, -⟩ := Prod.mk.injEq .. ▸ Except.ok.injEq .. ▸ h
        exact Option.noConfusion h1
      · rw [if_neg he] at h
        exact Except.noConfusion h

theorem nextFrame_ok_some (s s1 : St) (rt : Nat) (tx : Option (List Nat))
    (h : nextFrame s = .ok (some (rt, tx), s1)) :
    s1.data.length < s.data.length ∧
      s1.takes + 2 * s1.data.length + 1 ≤ s.takes + 2 * s.data.length := by
  unfold nextFrame at h
  rcases hp : pnext 1 s with ⟨ob, s1'⟩
  rw [hp] at h
  rcases ob with _ | b
  · dsimp only at h
    obtain ⟨h1, -⟩ := Prod.mk.injEq .. ▸ Except.ok.injEq .. ▸ h
    exact Option.noConfusion h1
  · dsimp only at h
    obtain ⟨hne, -, hs1'⟩ := pnext_eq_some _ _ _ _ hp
    have hdpos : 0 < s.data.length := List.length_pos.mpr hne
    have hlen1 : s1'.data.length + 1 = s.data.length := by
      rw [hs1']
      simp only [List.length_drop]
      omega
    have htk1 : s1'.takes = s.takes + 1 := by rw [hs1']
    by_cases hm : b.headD 0 = SHORT_ELEMENT ∨ b.headD 0 = SHORT_XMLNS_ATTRIBUTE ∨
        b.headD 0 = CHARS8TEXT ∨ b.headD 0 = CHARS16TEXT
    · rw [if_pos hm] at h
      rcases hr : readString (b.headD 0 == CHARS16TEXT) s1' with er | ⟨t, s2⟩
      · rw [hr] at h
        exact Except.noConfusion h
      · rw [hr] at h
        dsimp only at h
        obtain ⟨-, hs2⟩ := Prod.mk.injEq .. ▸ Except.ok.injEq .. ▸ h
        obtain ⟨htk2, hln2⟩ := readString_consumes _ _ _ _ hr
        subst hs2
        have hone : 1 ≤ if (b.headD 0 == CHARS16TEXT) = true then 2 else 1 := by
          by_cases hx : (b.headD 0 == CHARS16TEXT) = true
          · rw [if_pos hx]
            omega
          · rw [if_neg hx]
        omega
    · rw [if_neg hm] at h
      by_cases he : b.headD 0 = END_ELEMENT
      · rw [if_pos he] at h
        obtain ⟨-, hs2⟩ := Prod.mk.injEq .. ▸ Except.ok.injEq .. ▸ h
        subst hs2
        omega
      · rw [if_neg he] at h
        exact Except.noConfusion h

theorem innerLoopF_ok (fuel : Nat) : ∀ (e : Element) (s : St) (e2 : Element) (s2 : St)
    (fd : Bool), innerLoopF fuel e s = some (.ok (e2, s2, fd)) →
    s2.takes + 2 * s2.data.length ≤ s.takes + 2 * s.data.length + 1 ∧
      s2.data.length ≤ s.data.length := by
  induction fuel with
  | zero =>
    intro e s e2 s2 fd h
    exact Option.noConfusion h
  | succ f ih =>
    intro e s e2 s2 fd h
    rw [innerLoopF] at h
    rcases hnf : nextFrame s with er | ⟨ob, s1⟩
    · rw [hnf] at h
      dsimp only at h
      simp only [Option.some.injEq] at h
      exact Except.noConfusion h
    · rw [hnf] at h
      rcases ob with _ | ⟨rt, tx⟩
      · dsimp only at h
        simp only [Option.some.injEq, Except.ok.injEq, Prod.mk.injEq] at h
        obtain ⟨-, hs, -⟩ := h
        obtain ⟨hd, hs1⟩ := nextFrame_ok_none _ _ hnf
        subst hs
        rw [hs1, hd]
        dsimp only
        simp only [List.length_nil]
        omega
      · dsimp only at h
        obtain ⟨hlt, hpot⟩ := nextFrame_ok_some _ _ _ _ hnf
        by_cases h1 : rt = SHORT_XMLNS_ATTRIBUTE
        · rw [if_pos h1] at h
          obtain ⟨hp2, hl2⟩ := ih _ _ _ _ _ h
          omega
        · rw [if_neg h1] at h
          by_cases h2 : rt = CHARS8TEXT ∨ rt = CHARS16TEXT
          · rw [if_pos h2] at h
            obtain ⟨hp2, hl2⟩ := ih _ _ _ _ _ h
            omega
          · rw [if_neg h2] at h
            by_cases h3 : rt = END_ELEMENT
            · rw [if_pos h3] at h
              simp only [Option.some.injEq, Except.ok.injEq, Prod.mk.injEq] at h
              obtain ⟨-, hs, -⟩ := h
              subst hs
              omega
            · rw [if_neg h3] at h
              simp only [Option.some.injEq] at h
              exact Except.noConfusion h

theorem innerLoopF_isSome (fuel : Nat) : ∀ (e : Element) (s : St),
    s.data.length < fuel → (innerLoopF fuel e s).isSome = true := by
  induction fuel with
  | zero =>
    intro e s h
    omega
  | succ f ih =>
    intro e s h
    rw [innerLoopF]
    rcases hnf : nextFrame s with er | ⟨ob, s1⟩
    · rfl
    · rcases ob with _ | ⟨rt, tx⟩
      · rfl
      · dsimp only
        obtain ⟨hlt, -⟩ := nextFrame_ok_some _ _ _ _ hnf
        by_cases h1 : rt = SHORT_XMLNS_ATTRIBUTE
        · rw [if_pos h1]
          exact ih _ _ (by omega)
        · rw [if_neg h1]
          by_cases h2 : rt = CHARS8TEXT ∨ rt = CHARS16TEXT
          · rw [if_pos h2]
            exact ih _ _ (by omega)
          · rw [if_neg h2]
            by_cases h3 : rt = END_ELEMENT
            · rw [if_pos h3]
              rfl
            · rw [if_neg h3]
              rfl

theorem outerLoopF_ok_takes (fuel : Nat) : ∀ (root : List Element) (s : St)
    (r : List Element) (s2 : St), outerLoopF fuel root s = some (.ok (r, s2)) →
    s2.takes ≤ s.takes + 2 * s.data.length + 1 := by
  induction fuel with
  | zero =>
    intro root s r s2 h
    exact Option.noConfusion h
  | succ f ih =>
    intro root s r s2 h
    rw [outerLoopF] at h
    rcases hnf : nextFrame s with er | ⟨ob, s1⟩
    · rw [hnf] at h
      dsimp only at h
      simp only [Option.some.injEq] at h
      exact Except.noConfusion h
    · rw [hnf] at h
      rcases ob with _ | ⟨rt, tx⟩
      · dsimp only at h
        simp only [Option.some.injEq, Except.ok.injEq, Prod.mk.injEq] at h
        obtain ⟨-, hs⟩ := h
        obtain ⟨hd, hs1⟩ := nextFrame_ok_none _ _ hnf
        subst hs
        rw [hs1]
        dsimp only
        omega
      · dsimp only at h
        obtain ⟨hlt, hpot⟩ := nextFrame_ok_some _ _ _ _ hnf
        by_cases h1 : rt = SHORT_ELEMENT
        · rw [if_pos h1] at h
          rcases hil : innerLoopF (s1.data.length + 1) ⟨orEmpty tx, none, none⟩ s1
            with _ | (er | ⟨e, s3, fd⟩)
          · rw [hil] at h
            exact Option.noConfusion h
          · rw [hil] at h
            dsimp only at h
            simp only [Option.some.injEq] at h
            exact Except.noConfusion h
          · rw [hil] at h
            dsimp only at h
            obtain ⟨hp3, hl3⟩ := innerLoopF_ok _ _ _ _ _ _ hil
            cases fd
            · simp only [Bool.false_eq_true, ite_false] at h
              have := ih _ _ _ _ h
              omega
            · simp only [eq_self_iff_true, ite_true, Option.some.injEq,
                Except.ok.injEq, Prod.mk.injEq] at h
              obtain ⟨-, hs⟩ := h
              subst hs
              omega
        · rw [if_neg h1] at h
          simp only [Option.some.injEq] at h
          exact Except.noConfusion h

theorem outerLoopF_isSome (fuel : Nat) : ∀ (root : List Element) (s : St),
    s.data.length < fuel → (outerLoopF fuel root s).isSome = true := by
  induction fuel with
  | zero =>
    intro root s h
    omega
  | succ f ih =>
    intro root s h
    rw [outerLoopF]
    rcases hnf : nextFrame s with er | ⟨ob, s1⟩
    · rfl
    · rcases ob with _ | ⟨rt, tx⟩
      · rfl
      · dsimp only
        obtain ⟨hlt, -⟩ := nextFrame_ok_some _ _ _ _ hnf
        by_cases h1 : rt = SHORT_ELEMENT
        · rw [if_pos h1]
          rcases hil : innerLoopF (s1.data.length + 1) ⟨orEmpty tx, none, none⟩ s1
            with _ | (er | ⟨e, s3, fd⟩)
          · have hsome := innerLoopF_isSome (s1.data.length + 1)
              ⟨orEmpty tx, none, none⟩ s1 (by omega)
            rw [hil] at hsome
            simp at hsome
          · rfl
          · dsimp only
            obtain ⟨-, hl3⟩ := innerLoopF_ok _ _ _ _ _ _ hil
            cases fd
            · simp only [Bool.false_eq_true, ite_false]
              exact ih _ _ (by omega)
            · rfl
        · rw [if_neg h1]
          rfl

theorem decodeRun_isSome (msg : List Nat) : (decodeRun msg).isSome = true :=
  outerLoopF_isSome (msg.length + 1) [] ⟨msg, 0⟩ (Nat.lt_succ_self msg.length)

theorem readString_enc8 (str rest : List Nat) (c : Nat) (hs : ∀ ch ∈ str, IsScalar ch)
    (hne : utf8Encode str ++ rest ≠ []) :
    readString false ⟨(utf8Encode str).length :: (utf8Encode str ++ rest), c⟩ =
      .ok (str, ⟨rest, c + 2⟩) := by
  rw [readString_ok_len8 ((utf8Encode str).length) (utf8Encode str) rest c rfl hne,
    utf8Decode_encode str hs]

theorem readString_enc16 (str rest : List Nat) (c : Nat) (hs : ∀ ch ∈ str, IsScalar ch)
    (hne : utf8Encode str ++ rest ≠ []) :
    readString true ⟨(utf8Encode str).length % 256 :: (utf8Encode str).length / 256 ::
      (utf8Encode str ++ rest), c⟩ = .ok (str, ⟨rest, c + 2⟩) := by
  rw [readString_ok_len16 ((utf8Encode str).length % 256) ((utf8Encode str).length / 256)
    (utf8Encode str) rest c (by omega) hne, utf8Decode_encode str hs]

theorem innerLoopF_end (fuel : Nat) (e : Element) (rest : List Nat) (c : Nat) :
    innerLoopF (fuel + 1) e ⟨END_ELEMENT :: rest, c⟩ =
      some (.ok (e, ⟨rest, c + 1⟩, false)) := by
  rw [innerLoopF, nextFrame_end rest c]
  dsimp only
  rw [if_neg (by decide), if_neg (by decide), if_pos rfl]

theorem innerLoopF_exhausted (fuel : Nat) (e : Element) (c : Nat) :
    innerLoopF (fuel + 1) e ⟨[], c⟩ = some (.ok (e, ⟨[], c + 1⟩, true)) := by
  rw [innerLoopF, nextFrame_nil c]

theorem innerLoopF_textEnd (e1 : Element) (t : Option (List Nat)) (rest : List Nat)
    (c fuel : Nat) (ht : ∀ v ∈ t, ∀ ch ∈ v, IsScalar ch) (het : e1.text = none)
    (hf : (textPart t ++ (END_ELEMENT :: rest)).length < fuel) :
    ∃ c2, innerLoopF fuel e1 ⟨textPart t ++ (END_ELEMENT :: rest), c⟩ =
      some (.ok (⟨e1.name, e1.xmlns, t⟩, ⟨rest, c2⟩, false)) := by
  rcases t with _ | tv
  · obtain ⟨f, rfl⟩ : ∃ f, fuel = f + 1 := ⟨fuel - 1, by omega⟩
    refine ⟨c + 1, ?_⟩
    simp only [textPart, List.nil_append]
    rw [innerLoopF_end]
    have he : e1 = ⟨e1.name, e1.xmlns, none⟩ := by
      cases e1
      simp_all
    rw [← he]
  · have hts : ∀ ch ∈ tv, IsScalar ch := ht tv rfl
    by_cases h255 : (utf8Encode tv).length ≤ 255
    · have hsh : textPart (some tv) ++ (END_ELEMENT :: rest) =
          CHARS8TEXT :: (utf8Encode tv).length ::
            (utf8Encode tv ++ (END_ELEMENT :: rest)) := by
        simp [textPart, encString8, h255]
      rw [hsh] at hf ⊢
      obtain ⟨f, rfl⟩ : ∃ f, fuel = f + 1 := ⟨fuel - 1, by omega⟩
      obtain ⟨f2, rfl⟩ : ∃ f2, f = f2 + 1 := by
        simp only [List.length_cons, List.length_append] at hf
        exact ⟨f - 1, by omega⟩
      refine ⟨c + 1 + 3, ?_⟩
      rw [innerLoopF, nextFrame_payload8 CHARS8TEXT (Or.inr (Or.inr rfl)) _ _ _ _
        (readString_enc8 tv (END_ELEMENT :: rest) (c + 1) hts (by simp))]
      dsimp only
      rw [if_neg (by decide), if_pos (Or.inl rfl)]
      rw [innerLoopF_end]
      simp [orEmpty, het]
    · have hsh : textPart (some tv) ++ (END_ELEMENT :: rest) =
          CHARS16TEXT :: (utf8Encode tv).length % 256 :: (utf8Encode tv).length / 256 ::
            (utf8Encode tv ++ (END_ELEMENT :: rest)) := by
        simp [textPart, encString8, h255]
      rw [hsh] at hf ⊢
      obtain ⟨f, rfl⟩ : ∃ f, fuel = f + 1 := ⟨fuel - 1, by omega⟩
      obtain ⟨f2, rfl⟩ : ∃ f2, f = f2 + 1 := by
        simp only [List.length_cons, List.length_append] at hf
        exact ⟨f - 1, by omega⟩
      refine ⟨c + 1 + 3, ?_⟩
      rw [innerLoopF, nextFrame_payload16 _ _ _ _
        (readString_enc16 tv (END_ELEMENT :: rest) (c + 1) hts (by simp))]
      dsimp only
      rw [if_neg (by decide), if_pos (Or.inr rfl)]
      rw [innerLoopF_end]
      simp [orEmpty, het]

theorem innerLoopF_parts (nm : List Nat) (x t : Option (List Nat)) (rest : List Nat)
    (c fuel : Nat) (hx : ∀ v ∈ x, ∀ ch ∈ v, IsScalar ch)
    (ht : ∀ v ∈ t, ∀ ch ∈ v, IsScalar ch)
    (hf : (xmlnsPart x ++ (textPart t ++ (END_ELEMENT :: rest))).length < fuel) :
    ∃ c2, innerLoopF fuel ⟨nm, none, none⟩
        ⟨xmlnsPart x ++ (textPart t ++ (END_ELEMENT :: rest)), c⟩ =
      some (.ok (⟨nm, x, t⟩, ⟨rest, c2⟩, false)) := by
  rcases x with _ | xv
  · simp only [xmlnsPart, List.nil_append] at hf ⊢
    exact innerLoopF_textEnd ⟨nm, none, none⟩ t rest c fuel ht rfl hf
  · have hxs : ∀ ch ∈ xv, IsScalar ch := hx xv rfl
    have hsh : xmlnsPart (some xv) ++ (textPart t ++ (END_ELEMENT :: rest)) =
        SHORT_XMLNS_ATTRIBUTE :: (utf8Encode xv).length ::
          (utf8Encode xv ++ (textPart t ++ (END_ELEMENT :: rest))) := by
      simp [xmlnsPart, encString8]
    rw [hsh] at hf ⊢
    obtain ⟨f, rfl⟩ : ∃ f, fuel = f + 1 := ⟨fuel - 1, by omega⟩
    obtain ⟨c2, hrec⟩ := innerLoopF_textEnd ⟨nm, some xv, none⟩ t rest (c + 3) f ht rfl
      (by simp only [List.length_cons, List.length_append] at hf ⊢; omega)
    refine ⟨c2, ?_⟩
    rw [innerLoopF, nextFrame_payload8 SHORT_XMLNS_ATTRIBUTE (Or.inr (Or.inl rfl)) _ _ _ _
      (readString_enc8 xv (textPart t ++ (END_ELEMENT :: rest)) (c + 1) hxs (by simp))]
    dsimp only
    rw [if_pos rfl]
    have hc : c + 1 + 2 = c + 3 := by omega
    rw [hc]
    simpa [orEmpty] using hrec

theorem outerLoopF_encElement (e : Element) (rest : List Nat) (root : List Element)
    (c fuel : Nat) (hv : ValidElement e)
    (hf : (encodeElement e ++ rest).length < fuel + 1) :
    ∃ c2, outerLoopF (fuel + 1) root ⟨encodeElement e ++ rest, c⟩ =
      outerLoopF fuel (root ++ [e]) ⟨rest, c2⟩ := by
  obtain ⟨⟨hnm, -⟩, hx, ht⟩ := hv
  have hsh : encodeElement e ++ rest = SHORT_ELEMENT :: (utf8Encode e.name).length ::
      (utf8Encode e.name ++ (xmlnsPart e.xmlns ++ (textPart e.text ++
        (END_ELEMENT :: rest)))) := by
    simp [encodeElement]
  rw [hsh]
  have hinner := innerLoopF_parts e.name e.xmlns e.text rest (c + 3)
    ((xmlnsPart e.xmlns ++ (textPart e.text ++ (END_ELEMENT :: rest))).length + 1)
    (fun v hv2 ch hch => (hx v hv2).1 ch hch)
    (fun v hv2 ch hch => (ht v hv2).1 ch hch)
    (Nat.lt_succ_self _)
  obtain ⟨c2, hrec⟩ := hinner
  refine ⟨c2, ?_⟩
  rw [outerLoopF, nextFrame_payload8 SHORT_ELEMENT (Or.inl rfl) _ _ _ _
    (readString_enc8 e.name (xmlnsPart e.xmlns ++ (textPart e.text ++
      (END_ELEMENT :: rest))) (c + 1) hnm (by simp))]
  dsimp only
  rw [if_pos rfl]
  have hc : c + 1 + 2 = c + 3 := by omega
  have horE : orEmpty (some e.name) = e.name := rfl
  rw [horE, hc, hrec]
  have hee : (⟨e.name, e.xmlns, e.text⟩ : Element) = e := by cases e; rfl
  rw [hee]
  simp only [Bool.false_eq_true, ite_false]

theorem outerLoopF_encode (es : List Element) : ∀ (root : List Element) (c fuel : Nat),
    (∀ e ∈ es, ValidElement e) → (encode es).length < fuel →
    ∃ c2, outerLoopF fuel root ⟨encode es, c⟩ = some (.ok (root ++ es, ⟨[], c2⟩)) := by
  induction es with
  | nil =>
    intro root c fuel hv hf
    obtain ⟨f, rfl⟩ : ∃ f, fuel = f + 1 := ⟨fuel - 1, by omega⟩
    refine ⟨c + 1, ?_⟩
    have he : encode [] = [] := rfl
    rw [he, outerLoopF, nextFrame_nil c]
    simp
  | cons e es ih =>
    intro root c fuel hv hf
    have hsh : encode (e :: es) = encodeElement e ++ encode es := by
      simp [encode]
    rw [hsh] at hf ⊢
    obtain ⟨f, rfl⟩ : ∃ f, fuel = f + 1 := ⟨fuel - 1, by omega⟩
    obtain ⟨c2, hstep⟩ := outerLoopF_encElement e (encode es) root c f
      (hv e (by simp)) hf
    have hel : 1 ≤ (encodeElement e).length := by
      simp [encodeElement]
    obtain ⟨c3, hrest⟩ := ih (root ++ [e]) c2 f
      (fun z hz => hv z (by simp [hz]))
      (by simp only [List.length_append] at hf; omega)
    refine ⟨c3, ?_⟩
    rw [hstep, hrest]
    simp

theorem messageDecoder_encode (es : List Element) (hv : ∀ e ∈ es, ValidElement e) :
    messageDecoder (encode es) = .ok es := by
  obtain ⟨c2, h⟩ := outerLoopF_encode es [] 0 ((encode es).length + 1) hv
    (Nat.lt_succ_self _)
  rw [messageDecoder, decodeRun, h]
  simp

/-- C1: Round-trip — decoding the buffer produced by the companion encoder for
any sequence of valid Elements returns exactly that sequence, in order, with
`xmlns` and `text` preserved exactly and absent fields staying absent. -/
theorem claim_C1_round_trip (es : List Element) (hv : ∀ e ∈ es, ValidElement e) :
    messageDecoder (encode es) = .ok es :=
  messageDecoder_encode es hv

/-- Witness for C1 at a concrete element list with name, xmlns and text. -/
theorem claim_C1_round_trip_witness :
    messageDecoder (encode [⟨[65], some [110, 115], some [104, 105]⟩, ⟨[66], none, none⟩]) =
      .ok [⟨[65], some [110, 115], some [104, 105]⟩, ⟨[66], none, none⟩] :=
  claim_C1_round_trip _ (by
    intro e he
    simp only [List.mem_cons, List.mem_singleton] at he
    rcases he with rfl | rfl | hc
    · refine ⟨⟨by decide, by decide⟩, ?_, ?_⟩
      · intro x hx
        rw [← (by simpa using hx : [110, 115] = x)]
        exact ⟨by decide, by decide⟩
      · intro t ht
        rw [← (by simpa using ht : [104, 105] = t)]
        exact ⟨by decide, by decide⟩
    · refine ⟨⟨by decide, by decide⟩, ?_, ?_⟩
      · intro x hx
        simp at hx
      · intro t ht
        simp at ht
    · simp at hc)

/-- C2 counterexample: the buffer `[0x40, 0x02, 0x41]` declares a 2-byte name
payload with only one byte remaining; decoding succeeds on the silently
truncated slice instead of failing with an end-of-data error. -/
theorem claim_C2_counterexample :
    messageDecoder [0x40, 0x02, 0x41] = .ok [⟨[65], none, none⟩] := by rfl

/-- C2 (amended): a 1- or 2-byte length-prefix read that cannot be fully
satisfied fails with the end-of-data error, and a payload read attempted with
zero bytes remaining fails with the end-of-data error; but a payload read of
`len` bytes with `1 ≤ k < len` bytes remaining silently returns the `k`
remaining bytes and decoding proceeds. -/
theorem claim_C2_short_reads (c len b0 : Nat) (d : List Nat) (hne : d ≠ [])
    (hshort : d.length < len) :
    readString false ⟨[], c⟩ = .error .unexpectedEndLength ∧
    readString true ⟨[b0], c⟩ = .error .unexpectedEndLength ∧
    readString false ⟨[b0], c⟩ = .error .unexpectedEndString ∧
    readString false ⟨len :: d, c⟩ = .ok (utf8Decode d, ⟨[], c + 2⟩) :=
  ⟨readString_err_nil false c, readString_err_one b0 c, readString_err_payload b0 c,
    readString_trunc len d c hne hshort⟩

/-- Witness for C2 (amended) at concrete inputs. -/
theorem claim_C2_short_reads_witness :
    readString false ⟨[], 0⟩ = .error .unexpectedEndLength ∧
    readString true ⟨[7], 0⟩ = .error .unexpectedEndLength ∧
    readString false ⟨[7], 0⟩ = .error .unexpectedEndString ∧
    readString false ⟨2 :: [65], 0⟩ = .ok (utf8Decode [65], ⟨[], 0 + 2⟩) :=
  claim_C2_short_reads 0 2 7 [65] (by decide) (by decide)

/-- C3 counterexample: decoding the encoding of `ShortElement("A")` alone —
`[0x40, 0x01, 0x41]`, no `EndElement` — succeeds and returns the element
instead of failing with an end-of-data error. -/
theorem claim_C3_counterexample :
    messageDecoder [0x40, 0x01, 0x41] = .ok [⟨[65], none, none⟩] := by rfl

/-- C3 (amended): when the stream ends at a record boundary before the open
element's `EndElement`, decoding succeeds and returns the element as already
appended; in particular `ShortElement(name)` alone decodes to that single
element for every nonempty valid name. -/
theorem claim_C3_unclosed (nm : List Nat) (hs : ∀ ch ∈ nm, IsScalar ch)
    (hne : utf8Encode nm ≠ []) :
    messageDecoder (SHORT_ELEMENT :: (utf8Encode nm).length :: utf8Encode nm) =
      .ok [⟨nm, none, none⟩] := by
  have hread : readString false ⟨(utf8Encode nm).length :: utf8Encode nm, 1⟩ =
      .ok (nm, ⟨[], 3⟩) := by
    have h := readString_enc8 nm [] 1 hs (by simpa using hne)
    simpa using h
  rw [messageDecoder, decodeRun, outerLoopF,
    nextFrame_payload8 SHORT_ELEMENT (Or.inl rfl) _ _ _ _ hread]
  dsimp only
  rw [if_pos rfl, innerLoopF_exhausted]
  dsimp only
  simp [orEmpty]

/-- Witness for C3 (amended) at the one-byte name `"B"`. -/
theorem claim_C3_unclosed_witness :
    messageDecoder (SHORT_ELEMENT :: (utf8Encode [66]).length :: utf8Encode [66]) =
      .ok [⟨[66], none, none⟩] :=
  claim_C3_unclosed [66] (by decide) (by decide)

/-- C4 counterexample: the byte `0xFF` is not valid UTF-8, yet decoding the
buffer `[0x40, 0x01, 0xFF, 0x01]` does not fail: the payload decodes to the
replacement character U+FFFD and the element is returned. -/
theorem claim_C4_counterexample :
    messageDecoder [0x40, 0x01, 0xFF, 0x01] = .ok [⟨[0xFFFD], none, none⟩] := by rfl

/-- C4 (amended): string reading can only fail with the two end-of-data
errors — there is no invalid-UTF-8 failure; `TextDecoder` runs in non-fatal
mode and substitutes U+FFFD for invalid sequences. -/
theorem claim_C4_no_invalid_utf8_error (b16 : Bool) (s : St) (e : DecodeError)
    (h : readString b16 s = .error e) :
    e = .unexpectedEndLength ∨ e = .unexpectedEndString :=
  readString_error_cases b16 s e h

/-- Witness for C4 (amended) at a concrete failing read. -/
theorem claim_C4_no_invalid_utf8_error_witness :
    DecodeError.unexpectedEndLength = DecodeError.unexpectedEndLength ∨
      DecodeError.unexpectedEndLength = DecodeError.unexpectedEndString :=
  claim_C4_no_invalid_utf8_error false ⟨[], 0⟩ .unexpectedEndLength (by rfl)

theorem nextFrame_payload16_err (l : List Nat) (c : Nat) (e : DecodeError)
    (hread : readString true ⟨l, c + 1⟩ = .error e) :
    nextFrame ⟨CHARS16TEXT :: l, c⟩ = .error e := by
  simp [nextFrame, pnext_one_cons, hread, SHORT_ELEMENT, SHORT_XMLNS_ATTRIBUTE,
    CHARS8TEXT, CHARS16TEXT]

/-- C5: Closed tag set — exactly the five byte values 0x01, 0x08, 0x40, 0x98,
0x9A are accepted in tag position (reading a record that starts with one of
them never raises the unknown-record error); any other byte in tag position
makes the frame reader fail with the unknown-record error carrying that byte,
and a decode whose buffer starts with such a byte fails the same way with no
output. -/
theorem claim_C5_tag_bytes (b : Nat) (d : List Nat) (c : Nat) :
    ((b = END_ELEMENT ∨ b = SHORT_XMLNS_ATTRIBUTE ∨ b = SHORT_ELEMENT ∨
        b = CHARS8TEXT ∨ b = CHARS16TEXT) →
      ∀ e, nextFrame ⟨b :: d, c⟩ ≠ .error (.unknownRecordType e)) ∧
    (b ≠ END_ELEMENT → b ≠ SHORT_XMLNS_ATTRIBUTE → b ≠ SHORT_ELEMENT →
      b ≠ CHARS8TEXT → b ≠ CHARS16TEXT →
      nextFrame ⟨b :: d, c⟩ = .error (.unknownRecordType b) ∧
        messageDecoder (b :: d) = .error (.unknownRecordType b)) := by
  constructor
  · rintro (rfl | rfl | rfl | rfl | rfl) e hcon
    · rw [nextFrame_end] at hcon
      exact Except.noConfusion hcon
    · rcases hr : readString false ⟨d, c + 1⟩ with er | ⟨t, s2⟩
      · rw [nextFrame_payload_err SHORT_XMLNS_ATTRIBUTE (Or.inr (Or.inl rfl)) d c er hr]
          at hcon
        simp only [Except.error.injEq] at hcon
        rcases readString_error_cases _ _ _ hr with rfl | rfl <;>
          exact DecodeError.noConfusion hcon
      · rw [nextFrame_payload8 SHORT_XMLNS_ATTRIBUTE (Or.inr (Or.inl rfl)) d c t s2 hr]
          at hcon
        exact Except.noConfusion hcon
    · rcases hr : readString false ⟨d, c + 1⟩ with er | ⟨t, s2⟩
      · rw [nextFrame_payload_err SHORT_ELEMENT (Or.inl rfl) d c er hr] at hcon
        simp only [Except.error.injEq] at hcon
        rcases readString_error_cases _ _ _ hr with rfl | rfl <;>
          exact DecodeError.noConfusion hcon
      · rw [nextFrame_payload8 SHORT_ELEMENT (Or.inl rfl) d c t s2 hr] at hcon
        exact Except.noConfusion hcon
    · rcases hr : readString false ⟨d, c + 1⟩ with er | ⟨t, s2⟩
      · rw [nextFrame_payload_err CHARS8TEXT (Or.inr (Or.inr rfl)) d c er hr] at hcon
        simp only [Except.error.injEq] at hcon
        rcases readString_error_cases _ _ _ hr with rfl | rfl <;>
          exact DecodeError.noConfusion hcon
      · rw [nextFrame_payload8 CHARS8TEXT (Or.inr (Or.inr rfl)) d c t s2 hr] at hcon
        exact Except.noConfusion hcon
    · rcases hr : readString true ⟨d, c + 1⟩ with er | ⟨t, s2⟩
      · rw [nextFrame_payload16_err d c er hr] at hcon
        simp only [Except.error.injEq] at hcon
        rcases readString_error_cases _ _ _ hr with rfl | rfl <;>
          exact DecodeError.noConfusion hcon
      · rw [nextFrame_payload16 d c t s2 hr] at hcon
        exact Except.noConfusion hcon
  · intro h1 h2 h3 h4 h5
    have hnf : ∀ c0, nextFrame ⟨b :: d, c0⟩ = .error (.unknownRecordType b) := by
      intro c0
      simp only [nextFrame, pnext_one_cons, List.headD_cons]
      rw [if_neg (by simp [h3, h2, h4, h5]), if_neg h1]
    refine ⟨hnf c, ?_⟩
    rw [messageDecoder, decodeRun, outerLoopF, hnf 0]

/-- Witness for C5 at the invalid tag byte 0xFF. -/
theorem claim_C5_tag_bytes_witness :
    nextFrame ⟨0xFF :: [], 0⟩ = .error (.unknownRecordType 0xFF) ∧
      messageDecoder (0xFF :: []) = .error (.unknownRecordType 0xFF) :=
  (claim_C5_tag_bytes 0xFF [] 0).2 (by decide) (by decide) (by decide) (by decide)
    (by decide)

/-- C6 counterexample: a stray `EndElement` at top level — the buffer `[0x01]`
— fails with the generic "Unknown record type" error carrying the byte 0x01;
the decoder has no distinct `UnexpectedRecordAtTopLevel` failure. -/
theorem claim_C6_counterexample :
    messageDecoder [0x01] = .error (.unknownRecordType 0x01) := by rfl

/-- C6 (amended): at top level, any well-formed record other than
`ShortElement` (attribute, text, or stray `EndElement`) aborts decoding, but
with the reused "Unknown record type" error carrying that record's tag byte;
no dedicated top-level error exists in the code. -/
theorem claim_C6_toplevel (s : St) (rt : Nat) (tx : Option (List Nat)) (s1 : St)
    (root : List Element) (fuel : Nat) (h : nextFrame s = .ok (some (rt, tx), s1))
    (hrt : rt ≠ SHORT_ELEMENT) :
    outerLoopF (fuel + 1) root s = some (.error (.unknownRecordType rt)) := by
  rw [outerLoopF, h]
  dsimp only
  rw [if_neg hrt]

/-- Witness for C6 (amended): a stray `EndElement` as the first record. -/
theorem claim_C6_toplevel_witness :
    outerLoopF 1 [] ⟨[0x01], 0⟩ = some (.error (.unknownRecordType 0x01)) :=
  claim_C6_toplevel ⟨[0x01], 0⟩ 0x01 none ⟨[], 1⟩ [] 0 (by rfl) (by decide)

/-- C7: a `Chars16Text` payload length is read as the 2-byte little-endian
value `b0 + b1 * 256` and every other payload record uses the 1-byte length
`b0`; consequently a 300-byte payload behind `Chars16Text` (length bytes 44,
1) and a 200-byte payload behind `Chars8Text` each decode back to the
identical string. -/
theorem claim_C7_length_encodings (c b0 b1 : Nat) (s t d d8 rest : List Nat)
    (hs : ∀ ch ∈ s, IsScalar ch) (ht : ∀ ch ∈ t, IsScalar ch)
    (hls : (utf8Encode s).length = 300) (hlt : (utf8Encode t).length = 200)
    (hd : d.length = b0 + b1 * 256) (hd8 : d8.length = b0) :
    readString true ⟨44 :: 1 :: (utf8Encode s ++ rest), c⟩ = .ok (s, ⟨rest, c + 2⟩) ∧
    readString false ⟨200 :: (utf8Encode t ++ rest), c⟩ = .ok (t, ⟨rest, c + 2⟩) ∧
    (d ++ rest ≠ [] →
      readString true ⟨b0 :: b1 :: (d ++ rest), c⟩ = .ok (utf8Decode d, ⟨rest, c + 2⟩)) ∧
    (d8 ++ rest ≠ [] →
      readString false ⟨b0 :: (d8 ++ rest), c⟩ = .ok (utf8Decode d8, ⟨rest, c + 2⟩)) := by
  have hne_s : utf8Encode s ++ rest ≠ [] := by
    intro hcon
    have hl := congrArg List.length hcon
    simp [hls] at hl
  have hne_t : utf8Encode t ++ rest ≠ [] := by
    intro hcon
    have hl := congrArg List.length hcon
    simp [hlt] at hl
  refine ⟨?_, ?_, fun hne => readString_ok_len16 b0 b1 d rest c hd hne,
    fun hne => readString_ok_len8 b0 d8 rest c hd8 hne⟩
  · have h := readString_enc16 s rest c hs hne_s
    rw [hls, show (300 : Nat) % 256 = 44 by norm_num,
      show (300 : Nat) / 256 = 1 by norm_num] at h
    exact h
  · have h := readString_enc8 t rest c ht hne_t
    rw [hlt] at h
    exact h

set_option maxRecDepth 20000 in
/-- Witness for C7: a 300-byte `Chars16Text` payload and a 200-byte
`Chars8Text` payload at concrete inputs. -/
theorem claim_C7_length_encodings_witness :
    readString true ⟨44 :: 1 :: (utf8Encode (List.replicate 300 65) ++ []), 0⟩ =
      .ok (List.replicate 300 65, ⟨[], 0 + 2⟩) ∧
    readString false ⟨200 :: (utf8Encode (List.replicate 200 66) ++ []), 0⟩ =
      .ok (List.replicate 200 66, ⟨[], 0 + 2⟩) ∧
    readString true ⟨1 :: 1 :: (List.replicate 257 0 ++ []), 0⟩ =
      .ok (utf8Decode (List.replicate 257 0), ⟨[], 0 + 2⟩) ∧
    readString false ⟨1 :: ([9] ++ []), 0⟩ = .ok (utf8Decode [9], ⟨[], 0 + 2⟩) := by
  have h := claim_C7_length_encodings 0 1 1 (List.replicate 300 65)
    (List.replicate 200 66) (List.replicate 257 0) [9] [] (by decide) (by decide)
    (by rfl) (by rfl) (by decide) (by decide)
  exact ⟨h.1, h.2.1, h.2.2.1 (by decide), h.2.2.2 (by decide)⟩

/-- C8: Decoding the empty buffer succeeds and returns the empty element
sequence; it is not an error. -/
theorem claim_C8_empty_input : messageDecoder [] = .ok [] := by rfl

/-- C9 counterexample: decoding `[0x40, 0x00, 0x01]` succeeds after 5 take
operations — more than the buffer length 3 — refuting the claimed
buffer-length bound on take operations. -/
theorem claim_C9_counterexample :
    decodeRun [0x40, 0x00, 0x01] = some (.ok ([⟨[], none, none⟩], ⟨[], 5⟩)) ∧
      ([0x40, 0x00, 0x01] : List Nat).length < 5 :=
  ⟨by rfl, by decide⟩

/-- C9 (amended): every decode call terminates (the fuelled loop never runs
out at fuel `length + 1`), and a successful call performs at most
`2 * length + 1` take operations — buffer length alone is not a bound, since
a record's tag, length and payload reads can outnumber its bytes. -/
theorem claim_C9_termination_takes (msg : List Nat) :
    (decodeRun msg).isSome = true ∧
      ∀ r s, decodeRun msg = some (.ok (r, s)) → s.takes ≤ 2 * msg.length + 1 := by
  refine ⟨decodeRun_isSome msg, ?_⟩
  intro r s h
  have hb := outerLoopF_ok_takes (msg.length + 1) [] ⟨msg, 0⟩ r s h
  simpa using hb

/-- Witness for C9 (amended) on a concrete unclosed-element buffer. -/
theorem claim_C9_termination_takes_witness :
    (decodeRun [0x40, 0x01, 0x41]).isSome = true ∧
      (⟨[], 4⟩ : St).takes ≤ 2 * ([0x40, 0x01, 0x41] : List Nat).length + 1 :=
  ⟨(claim_C9_termination_takes [0x40, 0x01, 0x41]).1,
    (claim_C9_termination_takes [0x40, 0x01, 0x41]).2 [⟨[65], none, none⟩] ⟨[], 4⟩
      (by rfl)⟩

/-- C10: a buffer ending immediately after a zero-byte length prefix (such as
`[0x40, 0x00]`) fails with the end-of-data error even though zero payload
bytes were requested, because the producer is already exhausted and yields
`undefined`; the same zero-length payload followed by further bytes decodes to
the empty string. -/
theorem claim_C10_zero_length_at_end (c : Nat) (d : List Nat) (hne : d ≠ []) :
    messageDecoder [0x40, 0x00] = .error .unexpectedEndString ∧
    readString false ⟨[0], c⟩ = .error .unexpectedEndString ∧
    readString false ⟨0 :: d, c⟩ = .ok ([], ⟨d, c + 2⟩) ∧
    messageDecoder [0x40, 0x00, 0x01] = .ok [⟨[], none, none⟩] := by
  refine ⟨by rfl, readString_err_payload 0 c, ?_, by rfl⟩
  have h := readString_ok_len8 0 [] d c rfl (by simpa using hne)
  simpa [utf8Decode, utf8DecodeLoop, u8init] using h

/-- Witness for C10 at a concrete nonempty continuation. -/
theorem claim_C10_zero_length_at_end_witness :
    messageDecoder [0x40, 0x00] = .error .unexpectedEndString ∧
    readString false ⟨[0], 0⟩ = .error .unexpectedEndString ∧
    readString false ⟨0 :: [9], 0⟩ = .ok ([], ⟨[9], 0 + 2⟩) ∧
    messageDecoder [0x40, 0x00, 0x01] = .ok [⟨[], none, none⟩] :=
  claim_C10_zero_length_at_end 0 [9] (by decide)
